import Mathlib

/-
Shallow embedding of the stochastic image generators found in
porespy/generators/__imgen__.py, together with proofs of the
behavioural claims made by the specification.

External collaborators (numpy randomness, the Euclidean distance
transform, scipy distributions, transcendental functions such as log
and pi) are modelled as explicit oracle parameters, as the spec treats
them as black boxes; every control-flow and arithmetic decision of the
generators themselves follows the Python source line by line.
-/

namespace PoreSpy

/-- Outcome marker for a fallible call. -/
def isFail {ε α : Type} : Except ε α → Bool
  | .error _ => true
  | .ok _ => false

/-- Selection outcome of the cylinders front end: either the
fixed-count path (ncylinders given) or the porosity-targeting path. -/
inductive CylMode
  | fixedCount (n : ℕ)
  | targetPorosity
deriving DecidableEq

/-- Validation performed by the placement primitive (source lines
968-982 of __imgen__.py): a 2-D shape is rejected, and the angular
bounds phi_max and theta_max must lie in [0, 90].  The stochastic
fiber-painting loop that follows is driven by external randomness and
always returns an image once validation passes; it is abstracted here
to the successful fixed-count outcome. -/
def cylindersInner (shape : List ℕ) (phi_max theta_max : ℚ) (n : ℕ) :
    Except String CylMode :=
  if shape.length = 2 then
    .error "2D cylinders don't make sense"
  else if phi_max > 90 ∨ phi_max < 0 then
    .error "phi_max must be betwen 0 and 90"
  else if theta_max > 90 ∨ theta_max < 0 then
    .error "theta_max must be betwen 0 and 90"
  else
    .ok (.fixedCount n)

/-- The front-end dispatch of cylinders (source lines 1092-1107): if
ncylinders is supplied the fixed-count primitive is called at once and
its result returned, so porosity and max_iter are never examined on
that path; otherwise a missing porosity is rejected, then
max_iter < 3 is rejected, and the porosity-targeting loop runs. -/
def cylinders (shape : List ℕ) (ncylinders : Option ℕ) (porosity : Option ℚ)
    (phi_max theta_max : ℚ) (max_iter : ℤ) : Except String CylMode :=
  match ncylinders with
  | some n => cylindersInner shape phi_max theta_max n
  | none =>
    match porosity with
    | none => .error "'ncylinders' and 'porosity' can't be both None"
    | some _ =>
      if max_iter < 3 then
        .error "Iterations must be greater than or equal to 3"
      else
        .ok .targetPorosity

/-- One site-selection step of pseudo_gravity_packing (source lines
1233-1237).  Given that m sites were found at the minimum coordinate
along the gravity axis, the source draws the list index of the
inserted sphere with np.random.randint(0, m - 1) when m exceeds one,
and uses index 0 otherwise.  The oracle randint lo hi models
np.random.randint, which draws uniformly from the half-open range
[lo, hi). -/
def gravityChoice (m : ℕ) (randint : ℕ → ℕ → ℕ) : ℕ :=
  if 1 < m then randint 0 (m - 1) else 0

/-- Input validation of perlin_noise (source lines 741-750), applied
after shape and frequency have been broadcast to equal-length vectors:
shape must be an exact multiple of the frequency res along every axis,
res ^ octaves must not exceed shape along any axis, and the quotient
shape / res ^ octaves must be an exact integer along every axis.  The
numpy float tests (shape / res ** octaves < 1, and a nonzero remainder
mod 1) are exact integer comparisons here. -/
def perlin_noise_check (shape res : List ℕ) (octaves : ℕ) :
    Except String Unit :=
  if shape.length ≠ res.length then
    .error "shape and res must have same dimensions"
  else if (shape.zip res).any (fun p => p.1 % p.2 != 0) then
    .error "res must be a multiple of shape along each axis"
  else if (shape.zip res).any (fun p => p.1 < p.2 ^ octaves) then
    .error "(res[i])**octaves must be <= shape[i]"
  else if (shape.zip res).any (fun p => p.1 % p.2 ^ octaves != 0) then
    .error "Image size must be factor of res**octaves"
  else
    .ok ()

/-- The edge pairs contributed by one Voronoi facet (source lines
463-466): the cyclic sequence of consecutive vertex-index pairs,
closing back from the last vertex to the first. -/
def facetEdges (facet : List ℤ) : List (ℤ × ℤ) :=
  match facet with
  | [] => []
  | v :: rest => (v :: rest).zip (rest ++ [v])

/-- Sorts a vertex pair so the smaller index comes first, as
np.sort(edges, axis=1) does. -/
def sortPair (p : ℤ × ℤ) : ℤ × ℤ :=
  if p.1 ≤ p.2 then p else (p.2, p.1)

/-- Lexicographic order on sorted pairs; np.unique orders the complex
encodings e.1 + e.2 * i this way before removing duplicates. -/
def pairLe (p q : ℤ × ℤ) : Prop :=
  p.1 < q.1 ∨ (p.1 = q.1 ∧ p.2 ≤ q.2)

instance : DecidableRel pairLe := fun p q => by
  unfold pairLe
  infer_instance

/-- Edge extraction of _get_Voronoi_edges (source lines 462-476):
collect the cyclic vertex pairs of every facet, drop any pair touching
the vertex-at-infinity sentinel -1, canonicalize each pair with its
smaller index first, then sort and deduplicate exactly as np.unique
does on the complex encoding. -/
def get_Voronoi_edges (ridge_vertices : List (List ℤ)) : List (ℤ × ℤ) :=
  let edges := ridge_vertices.flatMap facetEdges
  let edges := edges.filter (fun p => !(p.1 == -1 || p.2 == -1))
  let edges := edges.map sortPair
  (edges.insertionSort pairLe).dedup

/-- Anchor of an insert_shape call: exactly one of a center or a
corner coordinate.  Supplying both or neither raises in the source and
is not representable here. -/
inductive Anchor (d : ℕ)
  | center (c : Fin d → ℤ)
  | corner (c : Fin d → ℤ)

/-- Write mode of insert_shape: overwrite replaces, overlay adds. -/
inductive WriteMode
  | overwrite
  | overlay
deriving DecidableEq

/-- Per-dimension slice bounds: the half-open target range
[lowerIm, upperIm) in the grid and the matching start index into the
element. -/
structure SliceSpec where
  lowerIm : ℤ
  upperIm : ℤ
  elStart : ℤ

/-- The center-anchored slice arithmetic of insert_shape (source lines
60-72): r = element.shape[dim] // 2, the grid range is clamped to
[0, im.shape[dim]), and the element range starts at
max(lower_im - center + r, 0). -/
def sliceCenter (imShape eShape : ℕ) (c : ℤ) : SliceSpec :=
  { lowerIm := max (c - (eShape : ℤ) / 2) 0
    upperIm := min (c + (eShape : ℤ) / 2 + 1) (imShape : ℤ)
    elStart := max (max (c - (eShape : ℤ) / 2) 0 - c + (eShape : ℤ) / 2) 0 }

/-- The corner-anchored slice arithmetic of insert_shape (source lines
73-81), including the min(lower_el, upper_el) guard that empties the
element range when the grid range is empty. -/
def sliceCorner (imShape eShape : ℕ) (c : ℤ) : SliceSpec :=
  { lowerIm := max c 0
    upperIm := min (c + (eShape : ℤ)) (imShape : ℤ)
    elStart := min (max (max c 0 - c) 0)
      (min (min (c + (eShape : ℤ)) (imShape : ℤ) - c) (eShape : ℤ)) }

/-- The updated grid of a center-anchored insert_shape call: indices
inside every dimension's clipped range receive the (multiplied)
element value, everything else keeps its value. -/
def insertCenterOut {d : ℕ} (imShape eShape : Fin d → ℕ)
    (im el : (Fin d → ℤ) → ℤ) (c : Fin d → ℤ) (value : ℤ)
    (mode : WriteMode) (idx : Fin d → ℤ) : ℤ :=
  if ∀ dim, (sliceCenter (imShape dim) (eShape dim) (c dim)).lowerIm ≤ idx dim ∧
      idx dim < (sliceCenter (imShape dim) (eShape dim) (c dim)).upperIm then
    match mode with
    | .overwrite => el (fun dim =>
        (sliceCenter (imShape dim) (eShape dim) (c dim)).elStart +
          (idx dim - (sliceCenter (imShape dim) (eShape dim) (c dim)).lowerIm)) * value
    | .overlay => im idx + el (fun dim =>
        (sliceCenter (imShape dim) (eShape dim) (c dim)).elStart +
          (idx dim - (sliceCenter (imShape dim) (eShape dim) (c dim)).lowerIm)) * value
  else im idx

/-- The updated grid of a corner-anchored insert_shape call. -/
def insertCornerOut {d : ℕ} (imShape eShape : Fin d → ℕ)
    (im el : (Fin d → ℤ) → ℤ) (c : Fin d → ℤ) (value : ℤ)
    (mode : WriteMode) (idx : Fin d → ℤ) : ℤ :=
  if ∀ dim, (sliceCorner (imShape dim) (eShape dim) (c dim)).lowerIm ≤ idx dim ∧
      idx dim < (sliceCorner (imShape dim) (eShape dim) (c dim)).upperIm then
    match mode with
    | .overwrite => el (fun dim =>
        (sliceCorner (imShape dim) (eShape dim) (c dim)).elStart +
          (idx dim - (sliceCorner (imShape dim) (eShape dim) (c dim)).lowerIm)) * value
    | .overlay => im idx + el (fun dim =>
        (sliceCorner (imShape dim) (eShape dim) (c dim)).elStart +
          (idx dim - (sliceCorner (imShape dim) (eShape dim) (c dim)).lowerIm)) * value
  else im idx

/-- insert_shape (source lines 15-91) over a d-dimensional grid of
integers: grids are functions on integer index vectors together with
their shape vectors.  A center anchor demands odd element extents
(else the source raises); the anchored element region is clipped to
the grid per dimension, the clipped region receives element * value
(overwrite) or is incremented by it (overlay) with the element indexed
relative to the clipped start, and every other index keeps its
value. -/
def insert_shape {d : ℕ} (imShape eShape : Fin d → ℕ)
    (im el : (Fin d → ℤ) → ℤ) (anchor : Anchor d) (value : ℤ)
    (mode : WriteMode) : Except String ((Fin d → ℤ) → ℤ) :=
  match anchor with
  | .center c =>
    if ∀ dim, eShape dim % 2 = 1 then
      .ok (insertCenterOut imShape eShape im el c value mode)
    else
      .error "Cannot specify center point when element has one or more even dimension"
  | .corner c =>
    .ok (insertCornerOut imShape eShape im el c value mode)

/-- Index vectors lying inside the grid bounds. -/
def inGrid {d : ℕ} (imShape : Fin d → ℕ) (idx : Fin d → ℤ) : Prop :=
  ∀ dim, 0 ≤ idx dim ∧ idx dim < (imShape dim : ℤ)

/-- The unclipped anchored footprint of the element. -/
def anchorBox {d : ℕ} (eShape : Fin d → ℕ) : Anchor d → (Fin d → ℤ) → Prop
  | .center c, idx => ∀ dim, c dim - (eShape dim : ℤ) / 2 ≤ idx dim ∧
      idx dim < c dim + (eShape dim : ℤ) / 2 + 1
  | .corner c, idx => ∀ dim, c dim ≤ idx dim ∧ idx dim < c dim + (eShape dim : ℤ)

/-- The element index addressed by a grid index inside the anchored
footprint. -/
def relIdx {d : ℕ} (eShape : Fin d → ℕ) : Anchor d → (Fin d → ℤ) → (Fin d → ℤ)
  | .center c, idx => fun dim => idx dim - c dim + (eShape dim : ℤ) / 2
  | .corner c, idx => fun dim => idx dim - c dim

/-- Claim C5: for every grid, element, value, write mode and anchor at
any integer coordinates (a center anchor presupposing the documented
odd element extents), insert_shape succeeds and clips: indices inside
both the anchored footprint and the grid receive element * value
(overwrite) or the original plus element * value (overlay) at the
matching relative element index; indices outside the anchored
footprint are unchanged; indices outside the grid bounds are never
written; hence an anchor whose footprint misses the grid entirely
returns the grid unchanged without raising. -/
theorem C5_insert_shape {d : ℕ} (imShape eShape : Fin d → ℕ)
    (im el : (Fin d → ℤ) → ℤ) (anchor : Anchor d) (value : ℤ)
    (mode : WriteMode)
    (hodd : ∀ c, anchor = .center c → ∀ dim, eShape dim % 2 = 1) :
    ∃ out, insert_shape imShape eShape im el anchor value mode = .ok out ∧
      (∀ idx, anchorBox eShape anchor idx → inGrid imShape idx →
        out idx = (match mode with
          | .overwrite => el (relIdx eShape anchor idx) * value
          | .overlay => im idx + el (relIdx eShape anchor idx) * value)) ∧
      (∀ idx, ¬ anchorBox eShape anchor idx → out idx = im idx) ∧
      (∀ idx, ¬ inGrid imShape idx → out idx = im idx) := by
  cases anchor with
  | center c =>
    have hoddc := hodd c rfl
    refine ⟨insertCenterOut imShape eShape im el c value mode,
      by simp only [insert_shape, if_pos hoddc], ?_, ?_, ?_⟩
    · intro idx hbox hgrid
      simp only [anchorBox] at hbox
      simp only [inGrid] at hgrid
      have hreg : ∀ dim,
          (sliceCenter (imShape dim) (eShape dim) (c dim)).lowerIm ≤ idx dim ∧
          idx dim < (sliceCenter (imShape dim) (eShape dim) (c dim)).upperIm := by
        intro dim
        have h1 := hbox dim
        have h2 := hgrid dim
        simp only [sliceCenter]
        omega
      have hrel : (fun dim =>
          (sliceCenter (imShape dim) (eShape dim) (c dim)).elStart +
            (idx dim - (sliceCenter (imShape dim) (eShape dim) (c dim)).lowerIm)) =
          relIdx eShape (.center c) idx := by
        funext dim
        have h1 := hbox dim
        simp only [sliceCenter, relIdx]
        omega
      simp only [insertCenterOut, if_pos hreg, hrel]
    · intro idx hnb
      simp only [anchorBox] at hnb
      have hreg : ¬ (∀ dim,
          (sliceCenter (imShape dim) (eShape dim) (c dim)).lowerIm ≤ idx dim ∧
          idx dim < (sliceCenter (imShape dim) (eShape dim) (c dim)).upperIm) := by
        intro hreg
        refine hnb (fun dim => ?_)
        have h := hreg dim
        simp only [sliceCenter] at h
        omega
      simp only [insertCenterOut, if_neg hreg]
    · intro idx hng
      simp only [inGrid] at hng
      have hreg : ¬ (∀ dim,
          (sliceCenter (imShape dim) (eShape dim) (c dim)).lowerIm ≤ idx dim ∧
          idx dim < (sliceCenter (imShape dim) (eShape dim) (c dim)).upperIm) := by
        intro hreg
        refine hng (fun dim => ?_)
        have h := hreg dim
        simp only [sliceCenter] at h
        omega
      simp only [insertCenterOut, if_neg hreg]
  | corner c =>
    refine ⟨insertCornerOut imShape eShape im el c value mode,
      by simp only [insert_shape], ?_, ?_, ?_⟩
    · intro idx hbox hgrid
      simp only [anchorBox] at hbox
      simp only [inGrid] at hgrid
      have hreg : ∀ dim,
          (sliceCorner (imShape dim) (eShape dim) (c dim)).lowerIm ≤ idx dim ∧
          idx dim < (sliceCorner (imShape dim) (eShape dim) (c dim)).upperIm := by
        intro dim
        have h1 := hbox dim
        have h2 := hgrid dim
        simp only [sliceCorner]
        omega
      have hrel : (fun dim =>
          (sliceCorner (imShape dim) (eShape dim) (c dim)).elStart +
            (idx dim - (sliceCorner (imShape dim) (eShape dim) (c dim)).lowerIm)) =
          relIdx eShape (.corner c) idx := by
        funext dim
        have h1 := hbox dim
        have h2 := hgrid dim
        simp only [sliceCorner, relIdx]
        omega
      simp only [insertCornerOut, if_pos hreg, hrel]
    · intro idx hnb
      simp only [anchorBox] at hnb
      have hreg : ¬ (∀ dim,
          (sliceCorner (imShape dim) (eShape dim) (c dim)).lowerIm ≤ idx dim ∧
          idx dim < (sliceCorner (imShape dim) (eShape dim) (c dim)).upperIm) := by
        intro hreg
        refine hnb (fun dim => ?_)
        have h := hreg dim
        simp only [sliceCorner] at h
        omega
      simp only [insertCornerOut, if_neg hreg]
    · intro idx hng
      simp only [inGrid] at hng
      have hreg : ¬ (∀ dim,
          (sliceCorner (imShape dim) (eShape dim) (c dim)).lowerIm ≤ idx dim ∧
          idx dim < (sliceCorner (imShape dim) (eShape dim) (c dim)).upperIm) := by
        intro hreg
        refine hng (fun dim => ?_)
        have h := hreg dim
        simp only [sliceCorner] at h
        omega
      simp only [insertCornerOut, if_neg hreg]

/-- Witness for C5_insert_shape: a 1-D grid of extent 5, a 3-voxel
element centered at coordinate 2, overwrite mode. -/
theorem C5_insert_shape_witness :
    ∃ out, insert_shape (fun _ : Fin 1 => 5) (fun _ => 3) (fun _ => 0)
        (fun _ => 1) (Anchor.center (fun _ => 2)) 2 WriteMode.overwrite
        = .ok out ∧
      (∀ idx, anchorBox (fun _ => 3) (Anchor.center (fun _ => 2)) idx →
        inGrid (fun _ : Fin 1 => 5) idx →
        out idx = (match WriteMode.overwrite with
          | .overwrite => (fun _ => (1 : ℤ))
              (relIdx (fun _ => 3) (Anchor.center (fun _ => 2)) idx) * 2
          | .overlay => (fun _ => (0 : ℤ)) idx + (fun _ => (1 : ℤ))
              (relIdx (fun _ => 3) (Anchor.center (fun _ => 2)) idx) * 2)) ∧
      (∀ idx, ¬ anchorBox (fun _ => 3) (Anchor.center (fun _ => 2)) idx →
        out idx = (fun _ => (0 : ℤ)) idx) ∧
      (∀ idx, ¬ inGrid (fun _ : Fin 1 => 5) idx →
        out idx = (fun _ => (0 : ℤ)) idx) :=
  C5_insert_shape (fun _ : Fin 1 => 5) (fun _ => 3) (fun _ => 0) (fun _ => 1)
    (Anchor.center (fun _ => 2)) 2 WriteMode.overwrite
    (fun _ _ _ => by simp)

/-- The bisection loop of overlapping_spheres (source lines 674-686),
parameterized by the measured solid-fraction oracle gf N = g(f(N)),
since f thresholds a random field and dilates it through the external
distance transform.  np.mean([N_high, N_low], dtype=int) truncates the
exact mean, which on naturals is floor division by two.  The error is
evaluated at the midpoint, the bracket is narrowed, and the loop
breaks once the absolute error is within tol.  Returns the final
control value together with the list of evaluated midpoints. -/
def bisectionGo (gf : ℕ → ℚ) (porosity tol : ℚ) :
    ℕ → ℕ → ℕ → ℕ → ℕ × List ℕ
  | 0, _, _, N_cur => (N_cur, [])
  | fuel + 1, N_low, N_high, _ =>
    let N := (N_high + N_low) / 2
    let err := gf N - porosity
    let N_low' := if err > 0 then N else N_low
    let N_high' := if err > 0 then N_high else N
    if |err| ≤ tol then (N, [N])
    else
      let r := bisectionGo gf porosity tol fuel N_low' N_high' N
      (r.1, N :: r.2)

/-- The overlapping_spheres controller (source lines 643-686) reduced
to its control decisions: the initial count estimate N0 opens the
bracket [N0, 4 * N0], the loop runs for at most iter_max rounds, and
the image built from the final value of N is returned (the returned
first component is that N). -/
def overlapping_spheres (gf : ℕ → ℚ) (porosity tol : ℚ) (N0 : ℕ)
    (iter_max : ℕ) : ℕ × List ℕ :=
  bisectionGo gf porosity tol iter_max N0 (4 * N0) N0

/-- Loop invariants of the bisection search: the trace holds at most
fuel midpoints, all inside the current bracket; the returned control
value is the last midpoint evaluated (or the incoming one if none);
all midpoints before the last miss the tolerance; a trace shorter than
the budget means the loop broke early with the final value within
tolerance; and a positive budget evaluates at least one midpoint. -/
theorem bisectionGo_spec (gf : ℕ → ℚ) (porosity tol : ℚ) :
    ∀ (fuel N_low N_high N_cur : ℕ), N_low ≤ N_high →
      (bisectionGo gf porosity tol fuel N_low N_high N_cur).2.length ≤ fuel ∧
      (bisectionGo gf porosity tol fuel N_low N_high N_cur).1 =
        (bisectionGo gf porosity tol fuel N_low N_high N_cur).2.getLastD N_cur ∧
      (∀ x ∈ (bisectionGo gf porosity tol fuel N_low N_high N_cur).2,
        N_low ≤ x ∧ x ≤ N_high) ∧
      (∀ x ∈ (bisectionGo gf porosity tol fuel N_low N_high N_cur).2.dropLast,
        tol < |gf x - porosity|) ∧
      ((bisectionGo gf porosity tol fuel N_low N_high N_cur).2.length < fuel →
        |gf (bisectionGo gf porosity tol fuel N_low N_high N_cur).1 - porosity|
          ≤ tol) ∧
      (0 < fuel → (bisectionGo gf porosity tol fuel N_low N_high N_cur).2 ≠ []) := by
  intro fuel
  induction fuel with
  | zero =>
    intro l h n _
    simp [bisectionGo]
  | succ fuel ih =>
    intro l h n hlh
    have hNl : l ≤ (h + l) / 2 := by omega
    have hNh : (h + l) / 2 ≤ h := by omega
    by_cases hbr : |gf ((h + l) / 2) - porosity| ≤ tol
    · simp only [bisectionGo, if_pos hbr]
      refine ⟨by simp, by simp, ?_, by simp, fun _ => hbr, by simp⟩
      intro x hx
      rw [List.mem_singleton] at hx
      subst hx
      exact ⟨hNl, hNh⟩
    · simp only [bisectionGo, if_neg hbr]
      by_cases hpos : gf ((h + l) / 2) - porosity > 0
      · simp only [if_pos hpos]
        obtain ⟨ih1, ih2, ih3, ih4, ih5, ih6⟩ := ih ((h + l) / 2) h ((h + l) / 2) hNh
        refine ⟨by simpa using ih1, by rw [List.getLastD_cons]; exact ih2,
          ?_, ?_, ?_, by simp⟩
        · intro x hx
          rcases List.mem_cons.mp hx with hx | hx
          · subst hx; exact ⟨hNl, hNh⟩
          · exact ⟨le_trans hNl (ih3 x hx).1, (ih3 x hx).2⟩
        · intro x hx
          cases hre : (bisectionGo gf porosity tol fuel ((h + l) / 2) h
              ((h + l) / 2)).2 with
          | nil => rw [hre] at hx; simp at hx
          | cons a t =>
            rw [hre, List.dropLast_cons_of_ne_nil (by simp)] at hx
            rcases List.mem_cons.mp hx with hx | hx
            · subst hx; exact lt_of_not_le hbr
            · exact ih4 x (by rw [hre]; exact hx)
        · intro hlen
          exact ih5 (by simpa using Nat.lt_of_succ_lt_succ (by simpa using hlen))
      · simp only [if_neg hpos]
        obtain ⟨ih1, ih2, ih3, ih4, ih5, ih6⟩ := ih l ((h + l) / 2) ((h + l) / 2) hNl
        refine ⟨by simpa using ih1, by rw [List.getLastD_cons]; exact ih2,
          ?_, ?_, ?_, by simp⟩
        · intro x hx
          rcases List.mem_cons.mp hx with hx | hx
          · subst hx; exact ⟨hNl, hNh⟩
          · exact ⟨(ih3 x hx).1, le_trans (ih3 x hx).2 hNh⟩
        · intro x hx
          cases hre : (bisectionGo gf porosity tol fuel l ((h + l) / 2)
              ((h + l) / 2)).2 with
          | nil => rw [hre] at hx; simp at hx
          | cons a t =>
            rw [hre, List.dropLast_cons_of_ne_nil (by simp)] at hx
            rcases List.mem_cons.mp hx with hx | hx
            · subst hx; exact lt_of_not_le hbr
            · exact ih4 x (by rw [hre]; exact hx)
        · intro hlen
          exact ih5 (by simpa using Nat.lt_of_succ_lt_succ (by simpa using hlen))

/-- Claim C3 (amended): overlapping_spheres bisects the bracket
[N0, 4 * N0] for at most iter_max rounds, never fails, stops early as
soon as the measured porosity error is within tol (every evaluated
midpoint but the last misses the tolerance, and a run shorter than
iter_max ends within it), and returns the image built from the final
midpoint evaluated, which need not be the best estimate seen. -/
theorem C3_overlapping_spheres_loop (gf : ℕ → ℚ) (porosity tol : ℚ)
    (N0 iter_max : ℕ) :
    (overlapping_spheres gf porosity tol N0 iter_max).2.length ≤ iter_max ∧
    (overlapping_spheres gf porosity tol N0 iter_max).1 =
      (overlapping_spheres gf porosity tol N0 iter_max).2.getLastD N0 ∧
    (∀ x ∈ (overlapping_spheres gf porosity tol N0 iter_max).2,
      N0 ≤ x ∧ x ≤ 4 * N0) ∧
    (∀ x ∈ (overlapping_spheres gf porosity tol N0 iter_max).2.dropLast,
      tol < |gf x - porosity|) ∧
    ((overlapping_spheres gf porosity tol N0 iter_max).2.length < iter_max →
      |gf (overlapping_spheres gf porosity tol N0 iter_max).1 - porosity|
        ≤ tol) :=
  let s := bisectionGo_spec gf porosity tol iter_max N0 (4 * N0) N0
    (by omega)
  ⟨s.1, s.2.1, s.2.2.1, s.2.2.2.1, s.2.2.2.2.1⟩

/-- The forward-model oracle of the C3 counterexample: measured solid
fractions at the three midpoints the bisection run visits. -/
def C3gf : ℕ → ℚ := fun n =>
  if n = 10 then 51/100 else if n = 13 then 1/10 else if n = 11 then 1/5 else 0

/-- Claim C3, counterexample: with target porosity 1/2, tolerance
1/1000, initial estimate 4 and three rounds, the loop evaluates
midpoints 10, 13, 11 and returns N = 11, whose measured error 3/10 is
larger than the error 1/100 of the already-evaluated midpoint 10, so
the returned image is not the best estimate reached over the
rounds. -/
theorem C3_counterexample :
    (overlapping_spheres C3gf (1/2) (1/1000) 4 3).2 = [10, 13, 11] ∧
    (overlapping_spheres C3gf (1/2) (1/1000) 4 3).1 = 11 ∧
    |C3gf 10 - 1/2| < |C3gf 11 - 1/2| := by
  have hrun : overlapping_spheres C3gf (1/2) (1/1000) 4 3 = (11, [10, 13, 11]) := by
    unfold overlapping_spheres
    norm_num [bisectionGo, C3gf, abs_of_nonneg]
  rw [hrun]
  norm_num [C3gf, abs_of_nonneg]

/-- Sum-of-squares divisor of the fractional schedule of the
porosity-targeting cylinders controller (source line 1127):
np.sum(np.arange(1, max_iter) ** 2).  For max_iter below 2 the sum is
empty and numpy turns 0.8 / 0 into infinity; the controller rejects
max_iter < 3 before ever reaching that case. -/
def cylSubdif (max_iter : ℕ) : ℚ :=
  (8/10) / ((List.range (max_iter - 1)).map (fun (i : ℕ) => ((i : ℚ) + 1)^2)).sum

/-- The recurrence producing the remaining insertion fractions (source
lines 1129-1130): each fraction adds (max_iter - i)^2 * subdif to the
previous one, for i = 1 .. max_iter - 1. -/
def cylFractionsGo (max_iter : ℕ) (subdif : ℚ) :
    ℕ → ℕ → ℚ → List ℚ
  | 0, _, _ => []
  | steps + 1, i, prev =>
    let next := prev + ((max_iter : ℚ) - (i : ℚ))^2 * subdif
    next :: cylFractionsGo max_iter subdif steps (i + 1) next

/-- The full fraction schedule (source lines 1128-1130): it starts at
0.2 and holds max_iter entries for max_iter above zero. -/
def cylFractions (max_iter : ℕ) : List ℚ :=
  1/5 :: cylFractionsGo max_iter (cylSubdif max_iter) (max_iter - 1) 1 (1/5)

/-- The fractional-insertion batch loop of the porosity-targeting
cylinders controller (source lines 1133-1144).  n_pixels_to_add is the
fixed pixel budget -log(porosity) * vol_total computed once before the
loop; the natural log being transcendental, the composite value
vols k = -log(measured porosity after batch k) * vol_total of each
remeasurement is an oracle parameter (it is nonnegative since a
porosity lies in (0, 1]).  Per batch: n_fibers is the ceiling of
frac * n_pixels_to_add / vol_fiber minus the fibers already counted;
the insertion is skipped when n_fibers is not positive, but
n_fibers_added is incremented by n_fibers unconditionally, and
vol_fiber is recalibrated to vol_added / n_fibers_added.  (Lean's
division by zero yields 0 where numpy yields infinity; the only
downstream use divides by vol_fiber again, and both conventions give
the quotient 0.)  Each batch contributes the pair
(n_fibers, n_fibers_added after the batch). -/
def cylBatchGo (n_pixels_to_add : ℚ) (vols : ℕ → ℚ) :
    List ℚ → ℕ → ℤ → ℚ → List (ℤ × ℤ)
  | [], _, _, _ => []
  | frac :: rest, k, n_fibers_added, vol_fiber =>
    let n_fibers_total := n_pixels_to_add / vol_fiber
    let n_fibers := ⌈frac * n_fibers_total⌉ - n_fibers_added
    let n_added' := n_fibers_added + n_fibers
    let vol_fiber' := vols k / (n_added' : ℚ)
    (n_fibers, n_added') ::
      cylBatchGo n_pixels_to_add vols rest (k + 1) n_added' vol_fiber'

/-- The porosity-targeting cylinders run, reduced to its fiber
bookkeeping: the batch loop over the fraction schedule, started from
zero fibers and the initial fiber-volume estimate vol_fiber0 (in the
source, length_estimate * pi * radius^2, with pi transcendental and
hence a parameter here). -/
def cylinders_porosity_counts (n_pixels_to_add vol_fiber0 : ℚ)
    (vols : ℕ → ℚ) (max_iter : ℕ) : List (ℤ × ℤ) :=
  cylBatchGo n_pixels_to_add vols (cylFractions max_iter) 0 0 vol_fiber0

/-- np.linspace(a, b, n) with rational endpoints: numpy returns the
empty array for n = 0, the single start point for n = 1, and both
endpoints with n - 2 evenly spaced interior points otherwise. -/
def linspace (a b : ℚ) (n : ℕ) : List ℚ :=
  if n = 0 then []
  else if n = 1 then [a]
  else (List.range n).map (fun (i : ℕ) => a + (b - a) * (i : ℚ) / ((n : ℚ) - 1))

/-- The radii derivation of polydisperse_spheres (source lines
375-378), with the scipy distribution abstracted by its inverse CDF
ppf, so that dist.interval(alpha) is the central-interval pair
(ppf((1-alpha)/2), ppf((1+alpha)/2)).  The rows of interval endpoints
at the nbins evenly spaced confidence levels between 0.05 and 0.95 are
averaged between consecutive rows, flattened in row-major order, and
clipped below at r_min. -/
def polyRadii (ppf : ℚ → ℚ) (nbins : ℕ) (r_min : ℚ) : List ℚ :=
  let alphas := linspace (1/20) (19/20) nbins
  let rows := alphas.map (fun a => (ppf ((1 - a)/2), ppf ((1 + a)/2)))
  let avg := (rows.zip rows.tail).map
    (fun pq => ((pq.1.1 + pq.2.1)/2, (pq.1.2 + pq.2.2)/2))
  avg.flatMap (fun p => [max p.1 r_min, max p.2 r_min])

/-- Claim C1 (amended): with a 3-D shape and in-range angular bounds,
a cylinders call fails exactly when ncylinders is absent and either
porosity is also absent or max_iter < 3.  When ncylinders is supplied
the fixed-count primitive runs regardless of porosity and max_iter, so
supplying both selection parameters succeeds rather than failing. -/
theorem C1_cylinders_validation (shape : List ℕ) (ncyl : Option ℕ)
    (por : Option ℚ) (phi th : ℚ) (mi : ℤ)
    (hshape : shape.length ≠ 2)
    (hphi : 0 ≤ phi ∧ phi ≤ 90) (hth : 0 ≤ th ∧ th ≤ 90) :
    isFail (cylinders shape ncyl por phi th mi) = true ↔
      (ncyl = none ∧ (por = none ∨ mi < 3)) := by
  obtain ⟨hphi1, hphi2⟩ := hphi
  obtain ⟨hth1, hth2⟩ := hth
  have h1 : ¬(phi > 90 ∨ phi < 0) := by
    push_neg
    exact ⟨hphi2, hphi1⟩
  have h2 : ¬(th > 90 ∨ th < 0) := by
    push_neg
    exact ⟨hth2, hth1⟩
  cases ncyl with
  | some n =>
    simp [cylinders, cylindersInner, hshape, h1, h2, isFail]
  | none =>
    cases por with
    | none => simp [cylinders, isFail]
    | some p =>
      by_cases hmi : mi < 3 <;> simp [cylinders, isFail, hmi]

/-- Witness for C1_cylinders_validation at a concrete porosity-mode
call with an insufficient iteration budget. -/
theorem C1_cylinders_validation_witness :
    isFail (cylinders [50, 50, 50] none (some (7/10)) 0 90 2) = true ↔
      ((none : Option ℕ) = none ∧
        ((some (7/10) : Option ℚ) = none ∨ (2 : ℤ) < 3)) :=
  C1_cylinders_validation [50, 50, 50] none (some (7/10)) 0 90 2
    (by decide) (by norm_num) (by norm_num)

/-- Claim C1, counterexample: a call supplying both ncylinders and
porosity, with max_iter = 1 < 3, does not fail as the claim requires:
it succeeds in fixed-count mode, ignoring porosity and max_iter. -/
theorem C1_counterexample :
    isFail (cylinders [50, 50, 50] (some 5) (some (7/10)) 0 90 1) = false := by
  decide

/-- Claim C6 (code bug): np.random.randint(0, m - 1) excludes its
upper bound, so when m > 1 sites tie at the minimum coordinate the
selected list index is always below m - 1: the last tied site is never
selectable, contradicting the uniform choice among all m sites. -/
theorem C6_gravity_choice_skips_last (randint : ℕ → ℕ → ℕ)
    (hr : ∀ lo hi, lo < hi → lo ≤ randint lo hi ∧ randint lo hi < hi)
    (m : ℕ) (hm : 2 ≤ m) :
    gravityChoice m randint < m - 1 := by
  unfold gravityChoice
  rw [if_pos (by omega)]
  exact (hr 0 (m - 1) (by omega)).2

/-- Witness for C6_gravity_choice_skips_last: with two tied sites and
an in-range draw, index 1 is never produced. -/
theorem C6_gravity_choice_skips_last_witness :
    gravityChoice 2 (fun lo _ => lo) < 1 :=
  C6_gravity_choice_skips_last (fun lo _ => lo)
    (fun lo _ h => ⟨Nat.le_refl lo, h⟩) 2 (by decide)

/-- Claim C7: the noise generator validates before generating.  With
equal-length shape and positive frequency vectors, validation fails
exactly when shape is not an exact multiple of the frequency on some
axis, or frequency ^ octaves exceeds shape on some axis, or the
quotient shape / frequency ^ octaves is not exact on some axis; the
call shape=[64,64], frequency=2, octaves=3 succeeds and the call
shape=[10,10], frequency=4, octaves=1 fails. -/
theorem C7_perlin_validation (shape res : List ℕ) (octaves : ℕ)
    (hlen : shape.length = res.length) (hres : ∀ r ∈ res, 0 < r) :
    (isFail (perlin_noise_check shape res octaves) = true ↔
      ((∃ p ∈ shape.zip res, ¬ p.2 ∣ p.1) ∨
       (∃ p ∈ shape.zip res, p.1 < p.2 ^ octaves) ∨
       (∃ p ∈ shape.zip res, ¬ p.2 ^ octaves ∣ p.1))) ∧
    perlin_noise_check [64, 64] [2, 2] 3 = .ok () ∧
    isFail (perlin_noise_check [10, 10] [4, 4] 1) = true := by
  refine ⟨?_, rfl, rfl⟩
  have hd : ∀ a b : ℕ, ((a % b != 0) = true) ↔ ¬ b ∣ a := by
    intro a b
    rw [bne_iff_ne, ne_eq, not_iff_not]
    exact ⟨fun h => Nat.dvd_of_mod_eq_zero h, fun h => Nat.mod_eq_zero_of_dvd h⟩
  unfold perlin_noise_check
  rw [if_neg (by simp [hlen])]
  by_cases h1 : (shape.zip res).any (fun p => p.1 % p.2 != 0) = true
  · rw [if_pos h1]
    simp only [isFail, true_iff]
    obtain ⟨p, hp, hpt⟩ := List.any_eq_true.mp h1
    exact Or.inl ⟨p, hp, (hd _ _).mp hpt⟩
  · rw [if_neg h1]
    by_cases h2 : (shape.zip res).any (fun p => decide (p.1 < p.2 ^ octaves)) = true
    · rw [if_pos h2]
      simp only [isFail, true_iff]
      obtain ⟨p, hp, hpt⟩ := List.any_eq_true.mp h2
      exact Or.inr (Or.inl ⟨p, hp, of_decide_eq_true hpt⟩)
    · rw [if_neg h2]
      by_cases h3 : (shape.zip res).any (fun p => p.1 % p.2 ^ octaves != 0) = true
      · rw [if_pos h3]
        simp only [isFail, true_iff]
        obtain ⟨p, hp, hpt⟩ := List.any_eq_true.mp h3
        exact Or.inr (Or.inr ⟨p, hp, (hd _ _).mp hpt⟩)
      · rw [if_neg h3]
        simp only [isFail, Bool.false_eq_true, false_iff]
        simp only [List.any_eq_true, not_exists, not_and, bne_iff_ne, ne_eq,
          decide_eq_true_eq, not_not] at h1 h2 h3
        rintro (⟨p, hp, hpd⟩ | ⟨p, hp, hpd⟩ | ⟨p, hp, hpd⟩)
        · exact hpd (Nat.dvd_of_mod_eq_zero (h1 p hp))
        · exact absurd hpd (h2 p hp)
        · exact hpd (Nat.dvd_of_mod_eq_zero (h3 p hp))

/-- Witness for C7_perlin_validation at the two concrete calls named
by the specification. -/
theorem C7_perlin_validation_witness :
    (isFail (perlin_noise_check [64, 64] [2, 2] 3) = true ↔
      ((∃ p ∈ ([64, 64] : List ℕ).zip [2, 2], ¬ p.2 ∣ p.1) ∨
       (∃ p ∈ ([64, 64] : List ℕ).zip [2, 2], p.1 < p.2 ^ 3) ∨
       (∃ p ∈ ([64, 64] : List ℕ).zip [2, 2], ¬ p.2 ^ 3 ∣ p.1))) :=
  (C7_perlin_validation [64, 64] [2, 2] 3 (by decide) (by decide)).1

/-- Squared Euclidean distance between two voxel coordinates; all
disk/ball and distance-transform comparisons below square both sides,
so integer arithmetic is exact. -/
def sqDist (p q : ℤ × ℤ) : ℤ := (p.1 - q.1)^2 + (p.2 - q.2)^2

/-- Boundary handling mode of RSA (source lines 177-182). -/
inductive RSAMode
  | contained
  | extended

/-- The forbidden border band width chosen by the mode (source lines
177-180): 2r for contained, r + 1 for extended. -/
def borderThickness (mode : RSAMode) (r : ℕ) : ℕ :=
  match mode with
  | .contained => 2 * r
  | .extended => r + 1

/-- get_border(shape, thickness, mode="faces"): true within thickness
voxels of any face of the padded grid. -/
def get_border (Px Py t : ℕ) (p : ℤ × ℤ) : Bool :=
  decide (p.1 < (t : ℤ) ∨ (Px : ℤ) - t ≤ p.1 ∨ p.2 < (t : ℤ) ∨ (Py : ℤ) - t ≤ p.2)

/-- np.pad(im, pad_width=2*radius, mode="edge") (source line 175):
each padded coordinate reads the clamped original coordinate. -/
def padEdge (im0 : ℤ × ℤ → Bool) (nx ny r : ℕ) (p : ℤ × ℤ) : Bool :=
  im0 (min (max (p.1 - 2 * r) 0) ((nx : ℤ) - 1), min (max (p.2 - 2 * r) 0) ((ny : ℤ) - 1))

/-- The padded grid with the forbidden border band forced solid
(source lines 175-184, im[border] = True). -/
def rsaInitIm (im0 : ℤ × ℤ → Bool) (nx ny r : ℕ) (mode : RSAMode) (p : ℤ × ℤ) : Bool :=
  padEdge im0 nx ny r p || get_border (nx + 4 * r) (ny + 4 * r) (borderThickness mode r) p

/-- Modelled from the spec: EDT(mask) -> distanceField is an external
collaborator, so the mask edt(im == 0) >= radius of source lines
188-189 is modelled directly: a voxel is a valid insertion center iff
every solid voxel of the padded grid lies at Euclidean distance at
least radius from it (squared on both sides). -/
def optionsInit (im : ℤ × ℤ → Bool) (Px Py r : ℕ) (p : ℤ × ℤ) : Bool :=
  decide (∀ x < Px, ∀ y < Py, im ((x : ℤ), (y : ℤ)) = true →
    ((r : ℤ))^2 ≤ sqDist p ((x : ℤ), (y : ℤ)))

/-- np.flatnonzero over the 2-D options mask in row-major order
(source lines 193 and 201). -/
def flatnonzero (options : ℤ × ℤ → Bool) (Px Py : ℕ) : List ℕ :=
  (List.range (Px * Py)).filter (fun k => options (((k / Py : ℕ) : ℤ), ((k % Py : ℕ) : ℤ)))

/-- Modelled from the spec: the structuring-element builder ps_disk is
an external collaborator ("StructuringElement(shape, radius) ->
booleanTemplate"); consistently with the validity rule "a voxel is a
valid insertion center iff its distance >= r", the disk template of
radius rho holds the voxels at distance strictly below rho, and
template_sm.sum() of source line 173 counts them over the
(2r+1) x (2r+1) window. -/
def templateCount (r : ℕ) : ℕ :=
  (((List.range (2 * r + 1)).flatMap
      (fun x => (List.range (2 * r + 1)).map (fun y => (x, y)))).filter
    (fun p => decide (sqDist (((p.1 : ℕ) : ℤ), ((p.2 : ℕ) : ℤ)) ((r : ℤ), (r : ℤ)) < ((r : ℤ))^2))).length

/-- The initial solid fraction im.sum() / im.size of the unpadded grid
(source line 165). -/
def vfStart (im0 : ℤ × ℤ → Bool) (nx ny : ℕ) : ℚ :=
  ((((List.range nx).flatMap (fun x => (List.range ny).map (fun y => (x, y)))).filter
    (fun p => im0 (((p.1 : ℕ) : ℤ), ((p.2 : ℕ) : ℤ)))).length : ℚ) / ((nx * ny : ℕ) : ℚ)

/-- The retry loop of _make_choice (source lines 251-265, 2-D branch):
with fuel = max_iters - count attempts left, draw a random index into
free_sites (np.random.randint(0, upper_limit) modelled by an oracle
draw reduced mod the list length), unravel the flat index manually
(coords[1] = fs mod Ny; coords[0] = (fs / Ny) mod Nx), accept the
coordinates if the options mask holds there, and return the all-(-1)
sentinel once count reaches max_iters. -/
def makeChoiceGo (options : ℤ × ℤ → Bool) (Nx Ny : ℕ) (free : List ℕ)
    (oracle : ℕ → ℕ) : ℕ → ℕ → (ℤ × ℤ) × ℕ
  | 0, count => ((-1, -1), count)
  | fuel + 1, count =>
    let ind := oracle count % free.length
    let fs := free.getD ind 0
    let cy : ℤ := ((fs % Ny : ℕ) : ℤ)
    let cx : ℤ := (((fs / Ny) % Nx : ℕ) : ℤ)
    if options (cx, cy) then ((cx, cy), count + 1)
    else makeChoiceGo options Nx Ny free oracle fuel (count + 1)

/-- _make_choice (source lines 220-282): the retry loop started with
count = 0 and the budget max_iters = upper_limit * 20. -/
def make_choice (options : ℤ × ℤ → Bool) (Nx Ny : ℕ) (free : List ℕ)
    (oracle : ℕ → ℕ) : (ℤ × ℤ) × ℕ :=
  makeChoiceGo options Nx Ny free oracle (free.length * 20) 0

/-- The mutable state of the RSA insertion loop: the padded grid, the
options mask, the free-site list, the running volume fraction, the
insertion counter, and (for the statements below) the list of centers
placed so far. -/
structure RSAState where
  im : ℤ × ℤ → Bool
  options : ℤ × ℤ → Bool
  free : List ℕ
  vf : ℚ
  i : ℕ
  placed : List (ℤ × ℤ)

/-- The RSA insertion loop (source lines 195-209).  While the volume
fraction is at most the target, fewer than n_max spheres are placed
and free sites remain: pick a candidate with _make_choice, regenerate
the free-site list when more than 100 attempts were needed, stop on
the sentinel, otherwise OR the small disk template (radius r,
strictly) into the grid, clear the large exclusion template (radius
2r, strictly) from the options mask, add the idealized per-sphere
fraction, count the sphere and record its center.  The oracle is
indexed by the insertion counter and the attempt count.  Fuel n_max+1
is enough since every non-final round increments i below n_max. -/
def rsaLoop (Px Py r : ℕ) (vf_final vf_template : ℚ) (n_max : ℕ)
    (oracle : ℕ → ℕ → ℕ) : ℕ → RSAState → RSAState
  | 0, st => st
  | fuel + 1, st =>
    if st.vf ≤ vf_final ∧ st.i < n_max ∧ 0 < st.free.length then
      let cc := make_choice st.options Px Py st.free (oracle st.i)
      let free' := if 100 < cc.2 then flatnonzero st.options Px Py else st.free
      if cc.1 = (-1, -1) then
        { st with free := free' }
      else
        rsaLoop Px Py r vf_final vf_template n_max oracle fuel
          { im := fun p => st.im p || decide (sqDist cc.1 p < ((r : ℤ))^2)
            options := fun p => st.options p && !(decide (sqDist cc.1 p < (2 * (r : ℤ))^2))
            free := free'
            vf := st.vf + vf_template
            i := st.i + 1
            placed := st.placed ++ [cc.1] }
    else st

/-- RSA (source lines 94-217) on a 2-D grid (the 3-D branch differs
only in the dimension of the templates and the unraveling): pad the
input by 2r with edge replication, force the mode's border band solid,
build the distance-based options mask and free-site list, and run the
insertion loop with the idealized per-sphere fraction
template_sm.sum() / im.size.  The final unpadding and recount (source
lines 213-216) only crop the returned array and are not part of the
returned state. -/
def RSA (im0 : ℤ × ℤ → Bool) (nx ny r : ℕ) (volume_fraction : ℚ) (n_max : ℕ)
    (mode : RSAMode) (oracle : ℕ → ℕ → ℕ) : RSAState :=
  let Px := nx + 4 * r
  let Py := ny + 4 * r
  let im1 := rsaInitIm im0 nx ny r mode
  let opts := optionsInit im1 Px Py r
  rsaLoop Px Py r volume_fraction ((templateCount r : ℚ) / ((nx * ny : ℕ) : ℚ))
    n_max oracle (n_max + 1)
    { im := im1, options := opts, free := flatnonzero opts Px Py,
      vf := vfStart im0 nx ny, i := 0, placed := [] }

/-- The fraction recurrence produces exactly the requested number of
steps. -/
theorem cylFractionsGo_length (m : ℕ) (s : ℚ) :
    ∀ (steps i : ℕ) (p : ℚ), (cylFractionsGo m s steps i p).length = steps := by
  intro steps
  induction steps with
  | zero => intro i p; rfl
  | succ n ih =>
    intro i p
    simp only [cylFractionsGo, List.length_cons, ih]

/-- For a positive budget the schedule holds exactly max_iter
fractions, so the batch loop runs exactly max_iter times. -/
theorem cylFractions_length (m : ℕ) (hm : 1 ≤ m) :
    (cylFractions m).length = m := by
  simp only [cylFractions, List.length_cons, cylFractionsGo_length]
  omega

/-- Bookkeeping invariants of the batch loop: it emits one pair per
fraction, and each batch's cumulative count is the previous cumulative
count plus that batch's (possibly negative) computed fiber number. -/
theorem cylBatchGo_spec (npx : ℚ) (vols : ℕ → ℚ) :
    ∀ (fracs : List ℚ) (k : ℕ) (n : ℤ) (vf : ℚ),
      (cylBatchGo npx vols fracs k n vf).length = fracs.length ∧
      (0 < fracs.length →
        ((cylBatchGo npx vols fracs k n vf).getD 0 (0, 0)).2 =
          n + ((cylBatchGo npx vols fracs k n vf).getD 0 (0, 0)).1) ∧
      (∀ i, i + 1 < fracs.length →
        ((cylBatchGo npx vols fracs k n vf).getD (i + 1) (0, 0)).2 =
          ((cylBatchGo npx vols fracs k n vf).getD i (0, 0)).2 +
          ((cylBatchGo npx vols fracs k n vf).getD (i + 1) (0, 0)).1) := by
  intro fracs
  induction fracs with
  | nil =>
    intro k n vf
    exact ⟨rfl, by simp, by simp⟩
  | cons f rest ih =>
    intro k n vf
    obtain ⟨ih1, ih2, ih3⟩ := ih (k + 1) ⌈f * (npx / vf)⌉
      (vols k / ((⌈f * (npx / vf)⌉ : ℤ) : ℚ))
    have harg : n + (⌈f * (npx / vf)⌉ - n) = ⌈f * (npx / vf)⌉ := by omega
    refine ⟨?_, ?_, ?_⟩
    · simp only [cylBatchGo, harg, List.length_cons, ih1]
    · intro _
      simp only [cylBatchGo, harg, List.getD_cons_zero]
    · intro i hi
      cases i with
      | zero =>
        have hres : 0 < rest.length := by simpa using hi
        simp only [cylBatchGo, harg, List.getD_cons_succ, List.getD_cons_zero]
        exact ih2 hres
      | succ j =>
        simp only [cylBatchGo, harg, List.getD_cons_succ]
        exact ih3 j (by simpa using hi)

/-- Claim C4 (amended): for every porosity-targeted cylinders run with
max_iter at least 3, the batch loop always terminates after exactly
max_iter batches, even when a batch computes zero or fewer fibers to
add; the cumulative fiber count changes across a batch by that batch's
computed n_fibers, which the code adds even when negative, so the
running total is non-decreasing across a batch exactly when that
batch's computed n_fibers is nonnegative (and can decrease
otherwise). -/
theorem C4_cylinders_batches (npx vf0 : ℚ) (vols : ℕ → ℚ) (max_iter : ℕ)
    (hmi : 3 ≤ max_iter) :
    (cylinders_porosity_counts npx vf0 vols max_iter).length = max_iter ∧
    (∀ i, i + 1 < max_iter →
      ((cylinders_porosity_counts npx vf0 vols max_iter).getD (i + 1) (0, 0)).2 =
        ((cylinders_porosity_counts npx vf0 vols max_iter).getD i (0, 0)).2 +
        ((cylinders_porosity_counts npx vf0 vols max_iter).getD (i + 1) (0, 0)).1) ∧
    (∀ i, i + 1 < max_iter →
      (((cylinders_porosity_counts npx vf0 vols max_iter).getD i (0, 0)).2 ≤
        ((cylinders_porosity_counts npx vf0 vols max_iter).getD (i + 1) (0, 0)).2 ↔
        0 ≤ ((cylinders_porosity_counts npx vf0 vols max_iter).getD (i + 1) (0, 0)).1)) := by
  have hfl : (cylFractions max_iter).length = max_iter :=
    cylFractions_length max_iter (by omega)
  obtain ⟨h1, _, h3⟩ := cylBatchGo_spec npx vols (cylFractions max_iter) 0 0 vf0
  have hstep : ∀ i, i + 1 < max_iter →
      ((cylinders_porosity_counts npx vf0 vols max_iter).getD (i + 1) (0, 0)).2 =
        ((cylinders_porosity_counts npx vf0 vols max_iter).getD i (0, 0)).2 +
        ((cylinders_porosity_counts npx vf0 vols max_iter).getD (i + 1) (0, 0)).1 := by
    intro i hi
    exact h3 i (by omega)
  refine ⟨by rw [cylinders_porosity_counts, h1, hfl], hstep, ?_⟩
  intro i hi
  rw [hstep i hi]
  omega

/-- Witness for C4_cylinders_batches: the degenerate run with no
pixel budget and max_iter = 3. -/
theorem C4_cylinders_batches_witness :
    (cylinders_porosity_counts 0 1 (fun _ => 0) 3).length = 3 ∧
    (∀ i, i + 1 < 3 →
      ((cylinders_porosity_counts 0 1 (fun _ => 0) 3).getD (i + 1) (0, 0)).2 =
        ((cylinders_porosity_counts 0 1 (fun _ => 0) 3).getD i (0, 0)).2 +
        ((cylinders_porosity_counts 0 1 (fun _ => 0) 3).getD (i + 1) (0, 0)).1) ∧
    (∀ i, i + 1 < 3 →
      (((cylinders_porosity_counts 0 1 (fun _ => 0) 3).getD i (0, 0)).2 ≤
        ((cylinders_porosity_counts 0 1 (fun _ => 0) 3).getD (i + 1) (0, 0)).2 ↔
        0 ≤ ((cylinders_porosity_counts 0 1 (fun _ => 0) 3).getD (i + 1) (0, 0)).1)) :=
  C4_cylinders_batches 0 1 (fun _ => 0) 3 (by decide)

/-- The measured-volume oracle of the C4 counterexample: after the
first batch the remeasured porosity is 0.5 in a 1000-voxel domain, so
vol_added is about 693 voxels; after the second it is about 600.  Both
values are nonnegative, as any -log(porosity) * vol_total must be. -/
def C4vols : ℕ → ℚ := fun k => if k = 0 then 693 else 600

/-- Claim C4, counterexample: a porosity-targeted run (pixel budget
356, matching a 0.7 target on 1000 voxels; initial fiber volume
estimate 31.4 = 10 * pi * 1^2) whose first batch inserts 3 fibers that
overlap far less than estimated.  The second batch computes
n_fibers = -1, skips insertion, but still adds -1 to the running total:
the cumulative count drops from 3 to 2 between consecutive batches, so
it is not non-decreasing. -/
theorem C4_counterexample :
    cylinders_porosity_counts 356 (157/5) C4vols 3 =
      [(3, 3), (-1, 2), (0, 2)] ∧
    ¬ ((3 : ℤ) ≤ 2) := by
  have hfr : cylFractions 3 = [1/5, 21/25, 1] := by
    norm_num [cylFractions, cylFractionsGo, cylSubdif, List.range_succ]
  have c1 : ⌈(356 : ℚ) / 157⌉ = 3 := by
    rw [Int.ceil_eq_iff]
    norm_num
  have c2 : ⌈(356 : ℚ) / 275⌉ = 2 := by
    rw [Int.ceil_eq_iff]
    norm_num
  have c3 : ⌈(89 : ℚ) / 75⌉ = 2 := by
    rw [Int.ceil_eq_iff]
    norm_num
  constructor
  · rw [cylinders_porosity_counts, hfr]
    norm_num [cylBatchGo, C4vols, c1, c2, c3]
  · decide

/-- One pair of flattened radii per averaged row: element 2i is the
clipped lower average and element 2i+1 the clipped upper average, and
the flattened list is twice as long as the row list. -/
theorem flatMapPair_getD (f g : ℚ × ℚ → ℚ) :
    ∀ (l : List (ℚ × ℚ)),
      (l.flatMap (fun p => [f p, g p])).length = 2 * l.length ∧
      ∀ i, i < l.length →
        (l.flatMap (fun p => [f p, g p])).getD (2 * i) 0 = f (l.getD i (0, 0)) ∧
        (l.flatMap (fun p => [f p, g p])).getD (2 * i + 1) 0 = g (l.getD i (0, 0)) := by
  intro l
  induction l with
  | nil => exact ⟨rfl, by intro i hi; simp at hi⟩
  | cons p t ih =>
    refine ⟨by simp [List.flatMap_cons, ih.1]; ring, ?_⟩
    intro i hi
    cases i with
    | zero => simp [List.flatMap_cons]
    | succ j =>
      have e1 : 2 * (j + 1) = 2 * j + 1 + 1 := by ring
      have e2 : 2 * (j + 1) + 1 = 2 * j + 1 + 1 + 1 := by ring
      constructor
      · rw [e1]
        simp only [List.flatMap_cons, List.cons_append, List.nil_append,
          List.getD_cons_succ]
        exact (ih.2 j (by simpa using hi)).1
      · rw [e2]
        simp only [List.flatMap_cons, List.cons_append, List.nil_append,
          List.getD_cons_succ]
        exact (ih.2 j (by simpa using hi)).2

/-- Indexing a list zipped with its own tail pairs consecutive
entries. -/
theorem zipTail_getD :
    ∀ (l : List (ℚ × ℚ)) (i : ℕ), i + 1 < l.length →
      (l.zip l.tail).getD i ((0, 0), (0, 0)) =
        (l.getD i (0, 0), l.getD (i + 1) (0, 0)) := by
  intro l
  induction l with
  | nil => intro i hi; simp at hi
  | cons a t ih =>
    intro i hi
    cases t with
    | nil => simp at hi
    | cons b u =>
      cases i with
      | zero => simp
      | succ j =>
        simp only [List.tail_cons, List.zip_cons_cons, List.getD_cons_succ]
        have := ih j (by simpa using hi)
        simpa [List.tail_cons] using this

/-- Interior points of np.linspace. -/
theorem linspace_getD (a b : ℚ) (n : ℕ) (hn : 2 ≤ n) (i : ℕ) (hi : i < n) :
    (linspace a b n).getD i 0 = a + (b - a) * (i : ℚ) / ((n : ℚ) - 1) := by
  unfold linspace
  rw [if_neg (by omega), if_neg (by omega)]
  rw [List.getD_eq_getElem?_getD, List.getElem?_map, List.getElem?_range hi]
  rfl

/-- np.linspace yields the requested number of points. -/
theorem linspace_length (a b : ℚ) (n : ℕ) (hn : 2 ≤ n) :
    (linspace a b n).length = n := by
  unfold linspace
  rw [if_neg (by omega), if_neg (by omega)]
  simp

/-- Indexing a mapped list inside bounds. -/
theorem getD_map_lt {α β : Type} (f : α → β) (l : List α) (i : ℕ)
    (hi : i < l.length) (d : α) (d' : β) :
    (l.map f).getD i d' = f (l.getD i d) := by
  rw [List.getD_eq_getElem?_getD, List.getElem?_map,
    List.getD_eq_getElem?_getD, List.getElem?_eq_getElem hi]
  rfl

/-- The i-th of the nbins evenly spaced confidence levels between 0.05
and 0.95 fed to dist.interval by polydisperse_spheres. -/
def intervalAlpha (nbins i : ℕ) : ℚ :=
  1/20 + (19/20 - 1/20) * (i : ℚ) / ((nbins : ℚ) - 1)

/-- Claim C8 (amended): for nbins at least 2, polydisperse_spheres
derives 2 * (nbins - 1) representative radii, not nbins.  Writing q i
for the i-th of the nbins evenly spaced confidence levels between 0.05
and 0.95, radius 2i is the clipped average of the lower central
interval endpoints ppf((1 - q i)/2) and ppf((1 - q (i+1))/2) of two
consecutive levels, and radius 2i+1 the clipped average of the upper
endpoints ppf((1 + q i)/2) and ppf((1 + q (i+1))/2) - not the inverse
CDF evaluated directly at one of the levels.  One overlapping-spheres
field is intersected per derived radius. -/
theorem C8_polydisperse_radii (ppf : ℚ → ℚ) (nbins : ℕ) (r_min : ℚ)
    (h2 : 2 ≤ nbins) :
    (polyRadii ppf nbins r_min).length = 2 * (nbins - 1) ∧
    (∀ i, i + 1 < nbins →
      (polyRadii ppf nbins r_min).getD (2 * i) 0 =
        max ((ppf ((1 - intervalAlpha nbins i)/2) +
              ppf ((1 - intervalAlpha nbins (i+1))/2))/2) r_min ∧
      (polyRadii ppf nbins r_min).getD (2 * i + 1) 0 =
        max ((ppf ((1 + intervalAlpha nbins i)/2) +
              ppf ((1 + intervalAlpha nbins (i+1))/2))/2) r_min) := by
  have hlin : (linspace (1/20) (19/20) nbins).length = nbins :=
    linspace_length _ _ _ h2
  have halpha : ∀ j, j < nbins →
      (linspace (1/20) (19/20) nbins).getD j 0 = intervalAlpha nbins j := by
    intro j hj
    rw [linspace_getD _ _ _ h2 j hj, intervalAlpha]
  have hdef : polyRadii ppf nbins r_min =
      ((((linspace (1/20) (19/20) nbins).map
          (fun a => (ppf ((1 - a)/2), ppf ((1 + a)/2)))).zip
        (((linspace (1/20) (19/20) nbins).map
          (fun a => (ppf ((1 - a)/2), ppf ((1 + a)/2)))).tail)).map
        (fun pq => ((pq.1.1 + pq.2.1)/2, (pq.1.2 + pq.2.2)/2))).flatMap
        (fun p => [max p.1 r_min, max p.2 r_min]) := rfl
  have hrowlen : ((linspace (1/20) (19/20) nbins).map
      (fun a => (ppf ((1 - a)/2), ppf ((1 + a)/2)))).length = nbins := by
    rw [List.length_map, hlin]
  have havglen : ((((linspace (1/20) (19/20) nbins).map
      (fun a => (ppf ((1 - a)/2), ppf ((1 + a)/2)))).zip
        (((linspace (1/20) (19/20) nbins).map
          (fun a => (ppf ((1 - a)/2), ppf ((1 + a)/2)))).tail)).map
        (fun pq => ((pq.1.1 + pq.2.1)/2, (pq.1.2 + pq.2.2)/2))).length
      = nbins - 1 := by
    rw [List.length_map, List.length_zip, List.length_tail, hrowlen]
    omega
  obtain ⟨hfl, hfp⟩ := flatMapPair_getD (fun p => max p.1 r_min)
    (fun p => max p.2 r_min)
    ((((linspace (1/20) (19/20) nbins).map
        (fun a => (ppf ((1 - a)/2), ppf ((1 + a)/2)))).zip
      (((linspace (1/20) (19/20) nbins).map
        (fun a => (ppf ((1 - a)/2), ppf ((1 + a)/2)))).tail)).map
      (fun pq => ((pq.1.1 + pq.2.1)/2, (pq.1.2 + pq.2.2)/2)))
  constructor
  · rw [hdef, hfl, havglen]
  · intro i hi
    have hiavg : i < nbins - 1 := by omega
    obtain ⟨hp1, hp2⟩ := hfp i (by rw [havglen]; exact hiavg)
    have hzlen : i < ((((linspace (1/20) (19/20) nbins).map
        (fun a => (ppf ((1 - a)/2), ppf ((1 + a)/2)))).zip
      (((linspace (1/20) (19/20) nbins).map
        (fun a => (ppf ((1 - a)/2), ppf ((1 + a)/2)))).tail)).length) := by
      rw [List.length_zip, List.length_tail, hrowlen]
      omega
    have havg := getD_map_lt
      (fun pq : (ℚ × ℚ) × (ℚ × ℚ) => ((pq.1.1 + pq.2.1)/2, (pq.1.2 + pq.2.2)/2))
      _ i hzlen ((0, 0), (0, 0)) (0, 0)
    have hzip := zipTail_getD ((linspace (1/20) (19/20) nbins).map
        (fun a => (ppf ((1 - a)/2), ppf ((1 + a)/2)))) i
      (by rw [hrowlen]; omega)
    have hrow1 := getD_map_lt (fun a => (ppf ((1 - a)/2), ppf ((1 + a)/2)))
      (linspace (1/20) (19/20) nbins) i (by omega : i < _) 0 (0, 0)
    have hrow2 := getD_map_lt (fun a => (ppf ((1 - a)/2), ppf ((1 + a)/2)))
      (linspace (1/20) (19/20) nbins) (i+1) (by omega : i + 1 < _) 0 (0, 0)
    rw [hlin] at *
    constructor
    · rw [hdef, hp1, havg, hzip, hrow1, hrow2, halpha i (by omega),
        halpha (i+1) (by omega)]
    · rw [hdef, hp2, havg, hzip, hrow1, hrow2, halpha i (by omega),
        halpha (i+1) (by omega)]

/-- Witness for C8_polydisperse_radii at the identity inverse CDF with
five bins. -/
theorem C8_polydisperse_radii_witness :
    (polyRadii (fun x => x) 5 0).length = 2 * (5 - 1) ∧
    (∀ i, i + 1 < 5 →
      (polyRadii (fun x => x) 5 0).getD (2 * i) 0 =
        max (((1 - intervalAlpha 5 i)/2 +
              (1 - intervalAlpha 5 (i+1))/2)/2) 0 ∧
      (polyRadii (fun x => x) 5 0).getD (2 * i + 1) 0 =
        max (((1 + intervalAlpha 5 i)/2 +
              (1 + intervalAlpha 5 (i+1))/2)/2) 0) :=
  C8_polydisperse_radii (fun x => x) 5 0 (by decide)

/-- Claim C8, counterexample: with five bins the generator derives
eight radii (two per pair of consecutive confidence levels), not the
claimed five. -/
theorem C8_counterexample :
    (polyRadii (fun x => x) 5 0).length = 8 ∧ (8 : ℕ) ≠ 5 := by
  constructor
  · rfl
  · decide

/-- Claim C9: the extracted Voronoi edge set is canonicalized with the
smaller vertex index first, references no vertex-at-infinity sentinel
-1, contains no duplicate pairs, and holds exactly the canonicalized
raw cyclic facet edges that avoid the sentinel (so a shared edge
appears once). -/
theorem C9_voronoi_edges (rv : List (List ℤ)) :
    (∀ e ∈ get_Voronoi_edges rv, e.1 ≤ e.2 ∧ e.1 ≠ -1 ∧ e.2 ≠ -1) ∧
    (get_Voronoi_edges rv).Nodup ∧
    (∀ e, e ∈ get_Voronoi_edges rv ↔
      e ∈ ((rv.flatMap facetEdges).filter
            (fun p => !(p.1 == -1 || p.2 == -1))).map sortPair) := by
  have hmem : ∀ e, e ∈ get_Voronoi_edges rv ↔
      e ∈ ((rv.flatMap facetEdges).filter
            (fun p => !(p.1 == -1 || p.2 == -1))).map sortPair := by
    intro e
    unfold get_Voronoi_edges
    rw [List.mem_dedup]
    exact (List.perm_insertionSort pairLe _).mem_iff
  refine ⟨?_, ?_, hmem⟩
  · intro e he
    obtain ⟨p, hp, rfl⟩ := List.mem_map.mp ((hmem e).mp he)
    obtain ⟨hpm, hpc⟩ := List.mem_filter.mp hp
    have hne : p.1 ≠ -1 ∧ p.2 ≠ -1 := by
      simpa [Bool.or_eq_true, not_or] using hpc
    unfold sortPair
    by_cases hle : p.1 ≤ p.2
    · rw [if_pos hle]
      exact ⟨hle, hne.1, hne.2⟩
    · rw [if_neg hle]
      exact ⟨le_of_not_le hle, hne.2, hne.1⟩
  · exact List.nodup_dedup _

/-- Dichotomy of the retry loop: it returns the sentinel exactly when
the whole remaining budget is consumed (the returned count is the
initial count plus the fuel), or coordinates at which the options mask
is true at return time. -/
theorem makeChoiceGo_spec (options : ℤ × ℤ → Bool) (Nx Ny : ℕ) (free : List ℕ)
    (oracle : ℕ → ℕ) :
    ∀ fuel count,
      ((makeChoiceGo options Nx Ny free oracle fuel count).1 = (-1, -1) ∧
       (makeChoiceGo options Nx Ny free oracle fuel count).2 = count + fuel) ∨
      options (makeChoiceGo options Nx Ny free oracle fuel count).1 = true := by
  intro fuel
  induction fuel with
  | zero => intro count; exact Or.inl ⟨rfl, rfl⟩
  | succ fuel ih =>
    intro count
    simp only [makeChoiceGo]
    split
    · next hopt => exact Or.inr hopt
    · next hopt =>
      rcases ih (count + 1) with ⟨h1, h2⟩ | hs
      · exact Or.inl ⟨h1, by omega⟩
      · exact Or.inr hs

/-- The _make_choice dichotomy at the full budget of 20 attempts per
free site. -/
theorem make_choice_spec (options : ℤ × ℤ → Bool) (Nx Ny : ℕ) (free : List ℕ)
    (oracle : ℕ → ℕ) :
    ((make_choice options Nx Ny free oracle).1 = (-1, -1) ∧
     (make_choice options Nx Ny free oracle).2 = free.length * 20) ∨
    options (make_choice options Nx Ny free oracle).1 = true := by
  rcases makeChoiceGo_spec options Nx Ny free oracle (free.length * 20) 0 with ⟨h1, h2⟩ | hs
  · exact Or.inl ⟨h1, by simpa using h2⟩
  · exact Or.inr hs

/-- Loop invariant of the RSA insertion loop relative to the initial
options mask opts0: placed centers are pairwise at squared distance at
least (2r)^2; any voxel still valid in the current mask is at squared
distance at least (2r)^2 from every placed center; the current mask
refines opts0; and every placed center was valid in opts0. -/
def RSAInv (r : ℕ) (opts0 : ℤ × ℤ → Bool) (st : RSAState) : Prop :=
  List.Pairwise (fun a b => (2 * (r : ℤ))^2 ≤ sqDist a b) st.placed ∧
  (∀ c ∈ st.placed, ∀ p, st.options p = true → (2 * (r : ℤ))^2 ≤ sqDist c p) ∧
  (∀ p, st.options p = true → opts0 p = true) ∧
  (∀ c ∈ st.placed, opts0 c = true)

/-- The RSA loop preserves its invariant: a successful pick is valid
in the current mask, the exclusion update clears the strict ball of
radius 2r around it, and the mask only ever shrinks. -/
theorem rsaLoop_inv (Px Py r : ℕ) (vf_final vf_template : ℚ) (n_max : ℕ)
    (oracle : ℕ → ℕ → ℕ) (opts0 : ℤ × ℤ → Bool) :
    ∀ fuel st, RSAInv r opts0 st →
      RSAInv r opts0 (rsaLoop Px Py r vf_final vf_template n_max oracle fuel st) := by
  intro fuel
  induction fuel with
  | zero => intro st h; exact h
  | succ fuel ih =>
    intro st h
    rw [rsaLoop]
    split
    · dsimp only
      split
    
      · exact h
      · next hne =>
        refine ih _ ?_
        obtain ⟨hpw, hfar, hsub, hinit⟩ := h
        have hopt : st.options (make_choice st.options Px Py st.free (oracle st.i)).1 = true := by
          rcases make_choice_spec st.options Px Py st.free (oracle st.i) with ⟨h1, _⟩ | hs
          · exact absurd h1 hne
          · exact hs
        refine ⟨?_, ?_, ?_, ?_⟩
        · rw [List.pairwise_append]
          refine ⟨hpw, by simp, ?_⟩
          intro a ha b hb
          rw [List.mem_singleton] at hb
          subst hb
          exact hfar a ha _ hopt
        · intro c hc p hp
          rw [Bool.and_eq_true, Bool.not_eq_true', decide_eq_false_iff_not, not_lt] at hp
          rcases List.mem_append.mp hc with hc | hc
          · exact hfar c hc p hp.1
          · rw [List.mem_singleton] at hc
            subst hc
            exact hp.2
        · intro p hp
          rw [Bool.and_eq_true] at hp
          exact hsub p hp.1
        · intro c hc
          rcases List.mem_append.mp hc with hc | hc
          · exact hinit c hc
          · rw [List.mem_singleton] at hc
            subst hc
            exact hsub _ hopt
    · exact h

/-- Centers at squared distance at least (2r)^2 have disjoint strict
disk footprints of radius r: a voxel strictly within r of both would
put the centers strictly within 2r of each other. -/
theorem far_implies_disjoint (r : ℤ) (a b : ℤ × ℤ)
    (h : (2 * r)^2 ≤ sqDist a b) (p : ℤ × ℤ) :
    ¬(sqDist a p < r^2 ∧ sqDist b p < r^2) := by
  rintro ⟨h1, h2⟩
  have key : sqDist a b ≤ 2 * sqDist a p + 2 * sqDist b p := by
    simp only [sqDist]
    nlinarith [sq_nonneg ((a.1 - p.1) - (p.1 - b.1)), sq_nonneg ((a.2 - p.2) - (p.2 - b.2))]
  nlinarith

/-- Claim C2 (amended): after any RSA run with radius r at least 1,
every pair of placed centers is at squared Euclidean distance at least
(2r)^2 - but not necessarily strictly greater, since the exclusion
template clears only the strict ball of radius 2r - and consequently
no two placed spheres' strict disk footprints of radius r share a
voxel. -/
theorem C2_RSA_spheres_disjoint (im0 : ℤ × ℤ → Bool) (nx ny r : ℕ)
    (volume_fraction : ℚ) (n_max : ℕ) (mode : RSAMode) (oracle : ℕ → ℕ → ℕ)
    (hr : 1 ≤ r) :
    List.Pairwise (fun a b => (2 * (r : ℤ))^2 ≤ sqDist a b)
      (RSA im0 nx ny r volume_fraction n_max mode oracle).placed ∧
    List.Pairwise
      (fun a b => ∀ p, ¬(sqDist a p < (r : ℤ)^2 ∧ sqDist b p < (r : ℤ)^2))
      (RSA im0 nx ny r volume_fraction n_max mode oracle).placed := by
  have hinv : RSAInv r
      (optionsInit (rsaInitIm im0 nx ny r mode) (nx + 4 * r) (ny + 4 * r) r)
      (RSA im0 nx ny r volume_fraction n_max mode oracle) := by
    exact rsaLoop_inv (nx + 4 * r) (ny + 4 * r) r volume_fraction
      ((templateCount r : ℚ) / ((nx * ny : ℕ) : ℚ)) n_max oracle
      (optionsInit (rsaInitIm im0 nx ny r mode) (nx + 4 * r) (ny + 4 * r) r)
      (n_max + 1)
      { im := rsaInitIm im0 nx ny r mode
        options := optionsInit (rsaInitIm im0 nx ny r mode) (nx + 4 * r) (ny + 4 * r) r
        free := flatnonzero
          (optionsInit (rsaInitIm im0 nx ny r mode) (nx + 4 * r) (ny + 4 * r) r)
          (nx + 4 * r) (ny + 4 * r)
        vf := vfStart im0 nx ny, i := 0, placed := [] }
      ⟨List.Pairwise.nil, by simp, fun p hp => hp, by simp⟩
  refine ⟨hinv.1, ?_⟩
  exact hinv.1.imp (fun hab p => far_implies_disjoint (r : ℤ) _ _ hab p)

/-- Witness for C2_RSA_spheres_disjoint at a concrete 3 x 1 grid with
unit radius. -/
theorem C2_RSA_spheres_disjoint_witness :
    List.Pairwise (fun a b => (2 * ((1 : ℕ) : ℤ))^2 ≤ sqDist a b)
      (RSA (fun _ => false) 3 1 1 1 10 RSAMode.contained
        (fun i _ => if i = 0 then 0 else if i = 1 then 2 else 0)).placed ∧
    List.Pairwise
      (fun a b => ∀ p, ¬(sqDist a p < ((1 : ℕ) : ℤ)^2 ∧ sqDist b p < ((1 : ℕ) : ℤ)^2))
      (RSA (fun _ => false) 3 1 1 1 10 RSAMode.contained
        (fun i _ => if i = 0 then 0 else if i = 1 then 2 else 0)).placed :=
  C2_RSA_spheres_disjoint (fun _ => false) 3 1 1 1 10 RSAMode.contained
    (fun i _ => if i = 0 then 0 else if i = 1 then 2 else 0) (by decide)

/-- The starting solid fraction of an empty grid is zero. -/
theorem vfStart_false (nx ny : ℕ) : vfStart (fun _ => false) nx ny = 0 := by
  simp [vfStart]

/-- The random-index oracle of the C2 counterexample run: the first
insertion draws free-site index 0, the second index 2, and every later
attempt draws index 0. -/
def C2oracle : ℕ → ℕ → ℕ := fun i _ => if i = 0 then 0 else if i = 1 then 2 else 0

/-- Claim C2, counterexample: on an empty 3 x 1 grid with radius 1 in
contained mode, the run driven by C2oracle places centers (2,2) and
(4,2) of the padded grid, whose squared distance is exactly (2r)^2 = 4:
the exclusion template clears only the strict ball of radius 2r, so
the claimed strict inequality "distance greater than 2r" fails even
though the footprints are disjoint. -/
theorem C2_counterexample :
    (RSA (fun _ => false) 3 1 1 1 10 RSAMode.contained C2oracle).placed = [(2, 2), (4, 2)] ∧
    sqDist (2, 2) (4, 2) = (2 * ((1 : ℕ) : ℤ))^2 ∧
    ¬ ((2 * ((1 : ℕ) : ℤ))^2 < sqDist (2, 2) (4, 2)) := by
  refine ⟨?_, by decide, by decide⟩
  simp only [RSA]
  norm_num [vfStart_false]
  rw [show templateCount 1 = 1 from by decide]
  rw [show flatnonzero (optionsInit (rsaInitIm (fun x => false) 3 1 1 RSAMode.contained) 7 5 1) 7 5
      = [12, 17, 22] from by decide]
  rw [show (11:ℕ) = 10 + 1 from rfl]
  rw [rsaLoop]
  dsimp only
  rw [if_pos (show (0:ℚ) ≤ 1 ∧ 0 < 10 ∧ 0 < ([12, 17, 22] : List ℕ).length from
    ⟨by norm_num, by norm_num, by norm_num⟩)]
  rw [show make_choice (optionsInit (rsaInitIm (fun x => false) 3 1 1 RSAMode.contained) 7 5 1) 7 5
        [12, 17, 22] (C2oracle 0) = (((2 : ℤ), (2 : ℤ)), 1) from by decide]
  dsimp only
  rw [if_neg (show ¬(100 < 1) from by decide)]
  rw [if_neg (show ¬(((2 : ℤ), (2 : ℤ)) = ((-1 : ℤ), (-1 : ℤ))) from by decide)]
  rw [show (10:ℕ) = 9 + 1 from rfl]
  rw [rsaLoop]
  dsimp only
  rw [if_pos (show (0:ℚ) + ((1:ℕ):ℚ) / 3 ≤ 1 ∧ 0 + 1 < 10 ∧ 0 < ([12, 17, 22] : List ℕ).length from
    ⟨by norm_num, by norm_num, by norm_num⟩)]
  rw [show make_choice (fun p =>
        optionsInit (rsaInitIm (fun x => false) 3 1 1 RSAMode.contained) 7 5 1 p &&
          !decide (sqDist (2, 2) p < (2 * ((1:ℕ):ℤ)) ^ 2)) 7 5 [12, 17, 22] (C2oracle (0 + 1))
      = (((4 : ℤ), (2 : ℤ)), 1) from by decide]
  dsimp only
  rw [if_neg (show ¬(100 < 1) from by decide)]
  rw [if_neg (show ¬(((4 : ℤ), (2 : ℤ)) = ((-1 : ℤ), (-1 : ℤ))) from by decide)]
  rw [show (9:ℕ) = 8 + 1 from rfl]
  rw [rsaLoop]
  dsimp only
  rw [if_pos (show (0:ℚ) + ((1:ℕ):ℚ) / 3 + ((1:ℕ):ℚ) / 3 ≤ 1 ∧ 0 + 1 + 1 < 8 + 1 + 1 ∧
      0 < ([12, 17, 22] : List ℕ).length from ⟨by norm_num, by norm_num, by norm_num⟩)]
  rw [show make_choice (fun p =>
        (optionsInit (rsaInitIm (fun x => false) 3 1 1 RSAMode.contained) 7 5 1 p &&
          !decide (sqDist (2, 2) p < (2 * ((1:ℕ):ℤ)) ^ 2)) &&
          !decide (sqDist (4, 2) p < (2 * ((1:ℕ):ℤ)) ^ 2)) 7 5 [12, 17, 22] (C2oracle (0 + 1 + 1))
      = (((-1 : ℤ), (-1 : ℤ)), 60) from by decide]
  dsimp only
  rw [if_neg (show ¬(100 < 60) from by decide)]
  rw [if_pos (show (((-1 : ℤ), (-1 : ℤ)) = ((-1 : ℤ), (-1 : ℤ))) from rfl)]
  simp

/-- Claim C10: _make_choice returns either the all-(-1) sentinel, and
then only with the attempt count equal to 20 times the free-site list
length, or coordinates at which the options mask is true at return
time; consequently every center the RSA loop inserts at was a valid
site at the moment it was chosen: it satisfied the initial
distance-to-solid mask, and it lay at squared distance at least (2r)^2
from every center inserted before it (exactly what the maintained mask
required at that moment). -/
theorem C10_make_choice_valid :
    (∀ (options : ℤ × ℤ → Bool) (Nx Ny : ℕ) (free : List ℕ) (oracle : ℕ → ℕ),
      ((make_choice options Nx Ny free oracle).1 = (-1, -1) ∧
       (make_choice options Nx Ny free oracle).2 = free.length * 20) ∨
      options (make_choice options Nx Ny free oracle).1 = true) ∧
    (∀ (im0 : ℤ × ℤ → Bool) (nx ny r : ℕ) (volume_fraction : ℚ) (n_max : ℕ)
       (mode : RSAMode) (oracle : ℕ → ℕ → ℕ),
      ((RSA im0 nx ny r volume_fraction n_max mode oracle).placed.all
        (fun c => optionsInit (rsaInitIm im0 nx ny r mode)
          (nx + 4 * r) (ny + 4 * r) r c)) = true ∧
      List.Pairwise (fun a b => (2 * (r : ℤ))^2 ≤ sqDist a b)
        (RSA im0 nx ny r volume_fraction n_max mode oracle).placed) := by
  refine ⟨make_choice_spec, ?_⟩
  intro im0 nx ny r volume_fraction n_max mode oracle
  have hinv : RSAInv r
      (optionsInit (rsaInitIm im0 nx ny r mode) (nx + 4 * r) (ny + 4 * r) r)
      (RSA im0 nx ny r volume_fraction n_max mode oracle) := by
    exact rsaLoop_inv (nx + 4 * r) (ny + 4 * r) r volume_fraction
      ((templateCount r : ℚ) / ((nx * ny : ℕ) : ℚ)) n_max oracle
      (optionsInit (rsaInitIm im0 nx ny r mode) (nx + 4 * r) (ny + 4 * r) r)
      (n_max + 1)
      { im := rsaInitIm im0 nx ny r mode
        options := optionsInit (rsaInitIm im0 nx ny r mode) (nx + 4 * r) (ny + 4 * r) r
        free := flatnonzero
          (optionsInit (rsaInitIm im0 nx ny r mode) (nx + 4 * r) (ny + 4 * r) r)
          (nx + 4 * r) (ny + 4 * r)
        vf := vfStart im0 nx ny, i := 0, placed := [] }
      ⟨List.Pairwise.nil, by simp, fun p hp => hp, by simp⟩
  exact ⟨List.all_eq_true.mpr hinv.2.2.2, hinv.1⟩

end PoreSpy


